import Mathlib

/-!
Shallow embedding of the simulation-and-settlement core of
`src/deriv_like_app.jsx` (a mock trading front-end).

Numbers are modelled as rationals; JavaScript `x.toFixed(n)` followed by
unary `+` is modelled as rounding to `n` decimal places.  Timestamps
(`new Date().toLocaleTimeString()`) are modelled as opaque `Nat` values
supplied by the environment.  Randomness (`Math.random()`) is modelled by
explicit parameters: a rational draw `u ∈ [0,1)` for the price tick and a
list of booleans (the outcomes of `Math.random() > 0.5`) for the
settlement sweep.  React `useState` cells become fields of `AppState`;
each event handler / interval callback becomes a function
`... → AppState → AppState`.
-/

set_option maxRecDepth 8000

namespace DerivLike

/-- Rounding to 2 decimal places: model of `+(x).toFixed(2)`. -/
def round2 (q : ℚ) : ℚ := ((round (q * 100) : ℤ) : ℚ) / 100

/-- Rounding to 5 decimal places: model of `+(x).toFixed(5)`. -/
def round5 (q : ℚ) : ℚ := ((round (q * 100000) : ℤ) : ℚ) / 100000

/-- Order side: the `side` argument of `placeOrder`, `'buy'` or `'sell'`. -/
inductive Side where
  | buy
  | sell
deriving DecidableEq, Repr

/-- Order status: `'pending'` or `'filled'` in the source. -/
inductive OrderStatus where
  | pending
  | filled
deriving DecidableEq, Repr

/-- An order record as built by `placeOrder` and updated by the settlement
sweep: `{ id, side, size, price, status, placedAt }`, with `filledAt` and
`pnl` added on fill (modelled as `Option` fields, `none` until the fill). -/
structure Order where
  id : String
  side : Side
  size : ℚ
  price : ℚ
  status : OrderStatus
  placedAt : Nat
  filledAt : Option Nat
  pnl : Option ℚ
deriving DecidableEq, Repr

/-- Feed event kinds: the `type` field of feed entries
(`'price' | 'trade' | 'order' | 'system' | 'error'`). -/
inductive FeedType where
  | price
  | trade
  | order
  | system
  | error
deriving DecidableEq, Repr

/-- A live-feed entry `{type, text, time}`. -/
structure FeedEvent where
  type : FeedType
  text : String
  time : Nat
deriving DecidableEq, Repr

/-- A chart point `{time, price}` pushed into `candles`. -/
structure Candle where
  time : Nat
  price : ℚ
deriving DecidableEq, Repr

/-- The state cells of the component:
`apiToken`, `connected`, `balance`, `price`, `candles`, `orders`, `feed`. -/
structure AppState where
  apiToken : String
  connected : Bool
  balance : ℚ
  price : ℚ
  candles : List Candle
  orders : List Order
  feed : List FeedEvent
deriving DecidableEq, Repr

/-- `setFeed(f => [e, ...f].slice(0, 50))`: prepend and keep the newest 50. -/
def publishFeed (e : FeedEvent) (f : List FeedEvent) : List FeedEvent :=
  (e :: f).take 50

/-- `setCandles(c => [...c, nc].slice(-200))`: append and keep the last 200. -/
def appendCandle (c : Candle) (cs : List Candle) : List Candle :=
  let l := cs ++ [c]
  l.drop (l.length - 200)

/-- The order record created by `placeOrder`:
`{ id, side, size, price, status: 'pending', placedAt }`. -/
def mkOrder (id : String) (side : Side) (size : ℚ) (p : ℚ) (t : Nat) : Order :=
  { id := id, side := side, size := size, price := p,
    status := OrderStatus.pending, placedAt := t, filledAt := none, pnl := none }

/-- Upper-case side name, as in `side.toUpperCase()`. -/
def sideUpper : Side → String
  | Side.buy => "BUY"
  | Side.sell => "SELL"

/-- The `'order'` feed event of `placeOrder`. -/
def orderEvent (side : Side) (p size : ℚ) (t : Nat) : FeedEvent :=
  { type := FeedType.order,
    text := "Placed " ++ sideUpper side ++ " @ " ++ toString p
              ++ " size " ++ toString size,
    time := t }

/-- The `'trade'` feed event of a settlement fill. -/
def tradeEvent (id : String) (profit : ℚ) (t : Nat) : FeedEvent :=
  { type := FeedType.trade,
    text := "Order " ++ id ++ " filled, P/L " ++ toString profit,
    time := t }

/-- The `'price'` feed event of a price tick. -/
def priceEvent (next : ℚ) (t : Nat) : FeedEvent :=
  { type := FeedType.price, text := "Price " ++ toString next, time := t }

/-- The `'error'` feed event published when connecting without a token. -/
def noTokenEvent (t : Nat) : FeedEvent :=
  { type := FeedType.error, text := "No API token configured. Use settings.",
    time := t }

/-- The `'system'` feed event of a successful connect. -/
def connectEvent (t : Nat) : FeedEvent :=
  { type := FeedType.system, text := "Connected to market (mock)", time := t }

/-- The `'system'` feed event of a disconnect. -/
def disconnectEvent (t : Nat) : FeedEvent :=
  { type := FeedType.system, text := "Disconnected from market", time := t }

/-- The `'system'` feed event of the Reset button. -/
def resetEvent (t : Nat) : FeedEvent :=
  { type := FeedType.system, text := "Reset demo state", time := t }

/-- The `'system'` feed event of the Deposit button. -/
def depositEvent (t : Nat) : FeedEvent :=
  { type := FeedType.system, text := "Deposited $100 (demo)", time := t }

/-- `placeOrder({side, size})`: build a pending order at the current price,
prepend it to `orders` (keeping the newest 50) and publish an `'order'`
feed event.  The random id `Math.random().toString(36).slice(2,9)` is an
explicit parameter; there is no validation of `size`. -/
def placeOrder (side : Side) (size : ℚ) (id : String) (t : Nat)
    (s : AppState) : AppState :=
  let ord := mkOrder id side size s.price t
  { s with orders := (ord :: s.orders).take 50,
           feed := publishFeed (orderEvent side s.price size t) s.feed }

/-- The profit computed on a fill:
`+(((o.side==='buy' ? (price - o.price) : (o.price - price)) * (o.size*100)).toFixed(2)`. -/
def settleProfit (price : ℚ) (o : Order) : ℚ :=
  round2 ((if o.side = Side.buy then price - o.price else o.price - price)
            * (o.size * 100))

/-- One settlement pass over the order list (the body of the 3500ms
interval callback).  `price` is the current price captured by the effect,
`fills` the per-order outcomes of `Math.random() > 0.5`.  Returns the
updated orders, the balance after the `setBalance` updates and the feed
after the `setFeed` updates (each fill does
`setBalance(b => +(b + profit).toFixed(2))` and prepends a trade event). -/
def sweepOrders (price : ℚ) (t : Nat) :
    List Order → List Bool → ℚ → List FeedEvent →
      List Order × ℚ × List FeedEvent
  | [], _, b, f => ([], b, f)
  | o :: os, fills, b, f =>
    if o.status = OrderStatus.pending ∧ fills.headD false = true then
      let profit := settleProfit price o
      let rest := sweepOrders price t os fills.tail (round2 (b + profit))
        (publishFeed (tradeEvent o.id profit t) f)
      ({ o with status := OrderStatus.filled, filledAt := some t,
                pnl := some profit } :: rest.1, rest.2)
    else
      let rest := sweepOrders price t os fills.tail b f
      (o :: rest.1, rest.2)

/-- The settlement sweep on the whole state: `if (os.length === 0) return os`
then map over the orders, updating balance and feed along the way. -/
def sweepState (t : Nat) (fills : List Bool) (s : AppState) : AppState :=
  if s.orders.isEmpty then s
  else
    let r := sweepOrders s.price t s.orders fills s.balance s.feed
    { s with orders := r.1, balance := r.2.1, feed := r.2.2 }

/-- The next price of a tick:
`const delta = (Math.random()-0.5)*0.0015; const next = +(prev + delta).toFixed(5)`
with `u` the `Math.random()` draw. -/
def nextPrice (p u : ℚ) : ℚ :=
  round5 (p + (u - 1/2) * (15/10000))

/-- The 950ms price-tick callback: advance the price, append a candle
(keeping the last 200) and publish a `'price'` feed event. -/
def tickPrice (u : ℚ) (t : Nat) (s : AppState) : AppState :=
  let next := nextPrice s.price u
  { s with price := next,
           candles := appendCandle { time := t, price := next } s.candles,
           feed := publishFeed (priceEvent next t) s.feed }

/-- `toggleConnect` when `connected` is true: `setConnected(false)` and a
`'system'` feed event (lines 98-99 of the source). -/
def disconnect (t : Nat) (s : AppState) : AppState :=
  { s with connected := false,
           feed := publishFeed (disconnectEvent t) s.feed }

/-- `toggleConnect()`: disconnect when connected; otherwise refuse with an
`'error'` event when `apiToken` is empty (falsy), else connect with a
`'system'` event. -/
def toggleConnect (t : Nat) (s : AppState) : AppState :=
  if s.connected then disconnect t s
  else if s.apiToken = "" then
    { s with feed := publishFeed (noTokenEvent t) s.feed }
  else
    { s with connected := true,
             feed := publishFeed (connectEvent t) s.feed }

/-- The Reset button handler:
`setBalance(1000); setOrders([]);` plus a `'system'` feed event. -/
def resetAccount (t : Nat) (s : AppState) : AppState :=
  { s with balance := 1000, orders := [],
           feed := publishFeed (resetEvent t) s.feed }

/-- The Deposit button handler: `setBalance(b => b + 100)` plus a
`'system'` feed event. -/
def deposit (t : Nat) (s : AppState) : AppState :=
  { s with balance := s.balance + 100,
           feed := publishFeed (depositEvent t) s.feed }

/-- The state after the mount effect: empty orders and feed, balance 1000,
no token, disconnected, warm-up candles `cs` (80 entropy-dependent points,
passed as a parameter), current price the last warm-up price (the
`useState` default `1.1` if there is none). -/
def initState (cs : List Candle) : AppState :=
  { apiToken := "", connected := false, balance := 1000,
    price := ((cs.getLast?).map Candle.price).getD (11/10),
    candles := cs, orders := [], feed := [] }

/-- One externally observable operation on the state: an order submission,
a price tick, a settlement sweep, a connect/disconnect toggle, a deposit
or a reset, each carrying its timestamp and entropy. -/
inductive Op where
  | place (side : Side) (size : ℚ) (id : String) (t : Nat)
  | tick (u : ℚ) (t : Nat)
  | sweep (t : Nat) (fills : List Bool)
  | toggle (t : Nat)
  | deposit (t : Nat)
  | reset (t : Nat)
deriving DecidableEq, Repr

/-- Interpretation of one operation. -/
def applyOp : Op → AppState → AppState
  | Op.place side size id t, s => placeOrder side size id t s
  | Op.tick u t, s => tickPrice u t s
  | Op.sweep t fills, s => sweepState t fills s
  | Op.toggle t, s => toggleConnect t s
  | Op.deposit t, s => deposit t s
  | Op.reset t, s => resetAccount t s

/-- Run a sequence of operations. -/
def run : List Op → AppState → AppState
  | [], s => s
  | op :: ops, s => run ops (applyOp op s)

/-- The action of one settlement pass on a single order, given the
outcome `d` of its `Math.random() > 0.5` draw: a pending order with a
successful draw is filled with `settleProfit`, anything else is
untouched. -/
def settleOne (price : ℚ) (t : Nat) (d : Bool) (o : Order) : Order :=
  if o.status = OrderStatus.pending ∧ d = true then
    { o with status := OrderStatus.filled, filledAt := some t,
             pnl := some (settleProfit price o) }
  else o

/-- The order-list component of a settlement pass, as a map pairing each
order with its random draw. -/
def settleMap (price : ℚ) (t : Nat) : List Order → List Bool → List Order
  | [], _ => []
  | o :: os, fills =>
    settleOne price t (fills.headD false) o :: settleMap price t os fills.tail

/-- An order's `pnl` and `filledAt` are populated exactly when its status
is `filled`. -/
def Order.consistent (o : Order) : Prop :=
  (o.status = OrderStatus.filled ↔ o.pnl.isSome) ∧
  (o.status = OrderStatus.filled ↔ o.filledAt.isSome)

/-- How one order may evolve across settlement sweeps: a filled order is
frozen, pending never reappears after filling, and field consistency is
preserved. -/
def evolves (o o' : Order) : Prop :=
  (o.status = OrderStatus.filled → o' = o) ∧
  (o'.status = OrderStatus.pending → o.status = OrderStatus.pending) ∧
  (Order.consistent o → Order.consistent o')

/-- The fields of an order a settlement sweep may never change. -/
def sameCore (o o' : Order) : Prop :=
  o'.id = o.id ∧ o'.side = o.side ∧ o'.size = o.size ∧
  o'.price = o.price ∧ o'.placedAt = o.placedAt

/-- Whether an operation is a settlement sweep. -/
def Op.isSweep : Op → Bool
  | Op.sweep _ _ => true
  | _ => false

/-- Whether an operation is one of the manual balance adjustments
(the Deposit or Reset button). -/
def Op.isAdjust : Op → Bool
  | Op.deposit _ => true
  | Op.reset _ => true
  | _ => false

/-- A rational is a whole number of cents (an exact 2-decimal value, as
produced by `toFixed(2)`). -/
def Cents (q : ℚ) : Prop := ∃ k : ℤ, q = (k : ℚ) / 100

/-- A rational lies on the 5-decimal grid (as produced by `toFixed(5)`). -/
def Grid5 (q : ℚ) : Prop := ∃ k : ℤ, q = (k : ℚ) / 100000

/-- The total profit credited to the balance by one settlement pass: the
sum of `settleProfit` over the orders that fill in this pass. -/
def sweepProfit (price : ℚ) : List Order → List Bool → ℚ
  | [], _ => 0
  | o :: os, fills =>
    if o.status = OrderStatus.pending ∧ fills.headD false = true then
      settleProfit price o + sweepProfit price os fills.tail
    else sweepProfit price os fills.tail

/-- The sum of the pnl values recorded on the orders of a list (filled
orders are exactly the ones carrying a pnl). -/
def pnlSum (os : List Order) : ℚ := (os.filterMap Order.pnl).sum

/-- No pending order carries a recorded pnl (true of every reachable
order list: `placeOrder` creates orders without pnl and the sweep assigns
pnl exactly when it fills). -/
def PendingNoPnl (os : List Order) : Prop :=
  ∀ o ∈ os, o.status = OrderStatus.pending → o.pnl = none

/-- The profit a single operation credits to the ledger: the sweep total
for a settlement sweep, zero for everything else. -/
def opPnl : Op → AppState → ℚ
  | Op.sweep _ fills, s => sweepProfit s.price s.orders fills
  | _, _ => 0

/-- The total profit credited over a run of operations. -/
def runPnl : List Op → AppState → ℚ
  | [], _ => 0
  | op :: ops, s => opPnl op s + runPnl ops (applyOp op s)

/-- The capacity invariant: at most 50 orders, 50 feed events and 200
price-history points. -/
def CapsOK (s : AppState) : Prop :=
  s.orders.length ≤ 50 ∧ s.feed.length ≤ 50 ∧ s.candles.length ≤ 200

/-- `n` price ticks in a row, each with the minimum `Math.random()` draw
`u = 0` (so each tick moves the price by the most negative delta,
`-0.00075`). -/
def worstTicks : Nat → ℚ → ℚ
  | 0, p => p
  | n + 1, p => worstTicks n (nextPrice p 0)

/-! ### Basic list lemmas about the bounded buffers -/

theorem publishFeed_cons_take (e : FeedEvent) (f : List FeedEvent) :
    publishFeed e f = e :: f.take 49 := by
  simp [publishFeed]

theorem publishFeed_length_le (e : FeedEvent) (f : List FeedEvent) :
    (publishFeed e f).length ≤ 50 := by
  simp [publishFeed, List.length_take]

theorem appendCandle_length_le (c : Candle) (cs : List Candle) :
    (appendCandle c cs).length ≤ 200 := by
  simp only [appendCandle, List.length_drop, List.length_append,
    List.length_cons, List.length_nil]
  omega

/-! ### Claim theorems: order submission, reset, disconnect, connectivity -/

/-- C1 (counterexample): the claim says `submitOrder(side, 0)` fails with
`InvalidSize` and leaves the order list unchanged; in the code,
`placeOrder` performs no size validation, so a size-0 submission succeeds
and prepends a pending order: starting from the initial (empty-order)
state, the order list goes from empty to a one-element list holding a
pending size-0 order. -/
theorem placeOrder_size_zero_succeeds :
    (initState []).orders = [] ∧
    (placeOrder Side.buy 0 "a1b2c3d" 0 (initState [])).orders
      = [mkOrder "a1b2c3d" Side.buy 0 (11/10) 0] ∧
    (mkOrder "a1b2c3d" Side.buy 0 (11/10) 0).status = OrderStatus.pending :=
  ⟨rfl, rfl, rfl⟩

/-- C1 (amended): `placeOrder` performs no size validation.  For every
call, whatever the size (zero and negative included), exactly one new
order with status Pending, entry price equal to the current price and the
freshly drawn id is prepended to the order list, which is truncated to
the newest 50. -/
theorem placeOrder_always_prepends_pending (side : Side) (size : ℚ)
    (id : String) (t : Nat) (s : AppState) :
    (placeOrder side size id t s).orders.head?
        = some (mkOrder id side size s.price t) ∧
    (mkOrder id side size s.price t).status = OrderStatus.pending ∧
    (mkOrder id side size s.price t).price = s.price ∧
    (placeOrder side size id t s).orders.tail = s.orders.take 49 ∧
    (placeOrder side size id t s).orders.length
        = min (s.orders.length + 1) 50 := by
  refine ⟨rfl, rfl, rfl, ?_, ?_⟩
  · simp [placeOrder]
  · simp [placeOrder, List.length_take]
    omega

/-- C7: the Reset button sets the balance to the canonical value 1000.00
and empties the order list, from any prior state. -/
theorem resetAccount_resets (t : Nat) (s : AppState) :
    (resetAccount t s).balance = 1000 ∧ (resetAccount t s).orders = [] :=
  ⟨rfl, rfl⟩

/-- C9: `disconnect` sets `connected = false` and publishes a System feed
event; calling it twice leaves the same state as calling it once, except
for the duplicate feed event. -/
theorem disconnect_idempotent (t1 t2 : Nat) (s : AppState) :
    (disconnect t1 s).connected = false ∧
    (disconnect t1 s).feed = publishFeed (disconnectEvent t1) s.feed ∧
    (disconnectEvent t1).type = FeedType.system ∧
    disconnect t2 (disconnect t1 s)
      = { disconnect t1 s with
            feed := publishFeed (disconnectEvent t2) (disconnect t1 s).feed } :=
  ⟨rfl, rfl, rfl, rfl⟩

/-- C6: connecting with no token configured publishes an Error feed event
and leaves `connected = false`; with a token configured, connect followed
by disconnect leaves `connected = false` and prepends exactly two System
events to the feed (one for the disconnect, one for the connect). -/
theorem connect_gate (t1 t2 : Nat) (s : AppState) (tok : String)
    (hc : s.connected = false) (htok : tok ≠ "") :
    (toggleConnect t1 { s with apiToken := "" }).connected = false ∧
    (toggleConnect t1 { s with apiToken := "" }).feed
        = publishFeed (noTokenEvent t1) s.feed ∧
    (noTokenEvent t1).type = FeedType.error ∧
    (toggleConnect t2 (toggleConnect t1 { s with apiToken := tok })).connected
        = false ∧
    (toggleConnect t2 (toggleConnect t1 { s with apiToken := tok })).feed
        = disconnectEvent t2 :: connectEvent t1 :: s.feed.take 48 ∧
    (disconnectEvent t2).type = FeedType.system ∧
    (connectEvent t1).type = FeedType.system := by
  refine ⟨?_, ?_, rfl, ?_, ?_, rfl, rfl⟩
  · simp [toggleConnect, hc]
  · simp [toggleConnect, hc]
  · simp [toggleConnect, disconnect, hc, htok]
  · simp [toggleConnect, disconnect, hc, htok, publishFeed, List.take_take]

/-- Witness for C6 at a concrete state and token. -/
theorem connect_gate_witness :
    (toggleConnect 0 { initState [] with apiToken := "" }).connected = false ∧
    (toggleConnect 0 { initState [] with apiToken := "" }).feed
        = publishFeed (noTokenEvent 0) (initState []).feed ∧
    (noTokenEvent 0).type = FeedType.error ∧
    (toggleConnect 1 (toggleConnect 0
        { initState [] with apiToken := "tok" })).connected = false ∧
    (toggleConnect 1 (toggleConnect 0
        { initState [] with apiToken := "tok" })).feed
        = disconnectEvent 1 :: connectEvent 0 :: (initState []).feed.take 48 ∧
    (disconnectEvent 1).type = FeedType.system ∧
    (connectEvent 0).type = FeedType.system :=
  connect_gate 0 1 (initState []) "tok" rfl (by decide)

/-! ### The order-list component of a sweep -/

theorem sweepOrders_fst (price : ℚ) (t : Nat) :
    ∀ (os : List Order) (fills : List Bool) (b : ℚ) (f : List FeedEvent),
      (sweepOrders price t os fills b f).1 = settleMap price t os fills := by
  intro os
  induction os with
  | nil => intro fills b f; rfl
  | cons o os ih =>
    intro fills b f
    simp only [sweepOrders, settleMap, settleOne]
    split
    · simp [ih]
    · simp [ih]

theorem sweepState_orders (t : Nat) (fills : List Bool) (s : AppState) :
    (sweepState t fills s).orders = settleMap s.price t s.orders fills := by
  unfold sweepState
  by_cases h : s.orders.isEmpty
  · rw [List.isEmpty_iff] at h
    simp [h, settleMap]
  · simp [h, sweepOrders_fst]

theorem sweepState_price (t : Nat) (fills : List Bool) (s : AppState) :
    (sweepState t fills s).price = s.price := by
  unfold sweepState; split <;> rfl

theorem sweepState_candles (t : Nat) (fills : List Bool) (s : AppState) :
    (sweepState t fills s).candles = s.candles := by
  unfold sweepState; split <;> rfl

theorem sweepState_connected (t : Nat) (fills : List Bool) (s : AppState) :
    (sweepState t fills s).connected = s.connected := by
  unfold sweepState; split <;> rfl

theorem sweepState_apiToken (t : Nat) (fills : List Bool) (s : AppState) :
    (sweepState t fills s).apiToken = s.apiToken := by
  unfold sweepState; split <;> rfl

/-! ### Per-order evolution -/

theorem settleOne_evolves (price : ℚ) (t : Nat) (d : Bool) (o : Order) :
    evolves o (settleOne price t d o) := by
  unfold settleOne evolves
  by_cases h : o.status = OrderStatus.pending ∧ d = true
  · rw [if_pos h]
    refine ⟨?_, ?_, ?_⟩
    · intro hf; rw [h.1] at hf; cases hf
    · intro hp; exact OrderStatus.noConfusion hp
    · intro _; simp [Order.consistent]
  · rw [if_neg h]
    exact ⟨fun _ => rfl, fun hp => hp, fun hc => hc⟩

theorem settleOne_sameCore (price : ℚ) (t : Nat) (d : Bool) (o : Order) :
    sameCore o (settleOne price t d o) := by
  unfold settleOne sameCore
  by_cases h : o.status = OrderStatus.pending ∧ d = true <;> simp [h]

theorem evolves_refl (o : Order) : evolves o o :=
  ⟨fun _ => rfl, fun hp => hp, fun hc => hc⟩

theorem evolves_trans {o o' o'' : Order} (h1 : evolves o o')
    (h2 : evolves o' o'') : evolves o o'' := by
  obtain ⟨f1, p1, c1⟩ := h1
  obtain ⟨f2, p2, c2⟩ := h2
  refine ⟨?_, fun hp => p1 (p2 hp), fun hc => c2 (c1 hc)⟩
  intro hf
  have h' : o' = o := f1 hf
  have hf' : o'.status = OrderStatus.filled := by rw [h']; exact hf
  have h'' : o'' = o' := f2 hf'
  rw [h'', h']

theorem forall₂_trans {α : Type} {R : α → α → Prop}
    (hR : ∀ a b c, R a b → R b c → R a c) :
    ∀ {l1 l2 l3 : List α}, List.Forall₂ R l1 l2 → List.Forall₂ R l2 l3 →
      List.Forall₂ R l1 l3 := by
  intro l1 l2 l3 h12
  induction h12 generalizing l3 with
  | nil => intro h23; cases h23; exact List.Forall₂.nil
  | cons hab h ih =>
    intro h23
    cases h23 with
    | cons hbc h' => exact List.Forall₂.cons (hR _ _ _ hab hbc) (ih h')

theorem forall₂_refl_of {α : Type} {R : α → α → Prop}
    (hR : ∀ a, R a a) : ∀ l : List α, List.Forall₂ R l l := by
  intro l
  induction l with
  | nil => exact List.Forall₂.nil
  | cons a l ih => exact List.Forall₂.cons (hR a) ih

theorem settleMap_forall₂_evolves (price : ℚ) (t : Nat) :
    ∀ (os : List Order) (fills : List Bool),
      List.Forall₂ evolves os (settleMap price t os fills) := by
  intro os
  induction os with
  | nil => intro fills; exact List.Forall₂.nil
  | cons o os ih =>
    intro fills
    exact List.Forall₂.cons (settleOne_evolves price t _ o) (ih fills.tail)

theorem settleMap_forall₂_sameCore (price : ℚ) (t : Nat) :
    ∀ (os : List Order) (fills : List Bool),
      List.Forall₂ sameCore os (settleMap price t os fills) := by
  intro os
  induction os with
  | nil => intro fills; exact List.Forall₂.nil
  | cons o os ih =>
    intro fills
    exact List.Forall₂.cons (settleOne_sameCore price t _ o) (ih fills.tail)

/-- C2: across any sequence of settlement sweeps, every order evolves
monotonically: a Filled order is frozen exactly as it was (so its pnl,
filledAt and ledger contribution are final and it is never re-evaluated),
a Pending result can only come from a Pending start (status transitions
only Pending → Filled, never back), and `pnl`/`filledAt` being set
exactly when the status is Filled is preserved; moreover every freshly
submitted order satisfies that consistency. -/
theorem sweep_status_monotone (ops : List Op) (s : AppState)
    (h : ∀ op ∈ ops, op.isSweep = true) :
    List.Forall₂ evolves s.orders (run ops s).orders ∧
    (∀ (id : String) (side : Side) (size p : ℚ) (t : Nat),
      Order.consistent (mkOrder id side size p t)) := by
  constructor
  · induction ops generalizing s with
    | nil => exact forall₂_refl_of evolves_refl s.orders
    | cons op ops ih =>
      have hop : op.isSweep = true := h op (List.mem_cons_self op ops)
      have hops : ∀ op' ∈ ops, op'.isSweep = true :=
        fun op' hm => h op' (List.mem_cons_of_mem op hm)
      match op, hop with
      | Op.sweep t fills, _ =>
        have h1 : List.Forall₂ evolves s.orders
            (applyOp (Op.sweep t fills) s).orders := by
          show List.Forall₂ evolves s.orders (sweepState t fills s).orders
          rw [sweepState_orders]
          exact settleMap_forall₂_evolves s.price t s.orders fills
        have h2 := ih (applyOp (Op.sweep t fills) s) hops
        exact @forall₂_trans Order evolves
          (fun a b c hab hbc => evolves_trans hab hbc) _ _ _ h1 h2
  · intro id side size p t
    simp [Order.consistent, mkOrder]

/-- Witness for C2: one sweep with a successful draw over a state holding
one freshly placed order. -/
theorem sweep_status_monotone_witness :
    List.Forall₂ evolves
      (placeOrder Side.buy 1 "a1b2c3d" 0 (initState [])).orders
      (run [Op.sweep 1 [true]]
        (placeOrder Side.buy 1 "a1b2c3d" 0 (initState []))).orders ∧
    (∀ (id : String) (side : Side) (size p : ℚ) (t : Nat),
      Order.consistent (mkOrder id side size p t)) :=
  sweep_status_monotone [Op.sweep 1 [true]]
    (placeOrder Side.buy 1 "a1b2c3d" 0 (initState [])) (by simp [Op.isSweep])

theorem settleMap_pnl (price : ℚ) (t : Nat) :
    ∀ (os : List Order) (fills : List Bool),
      List.Forall₂ (fun o o' =>
        o.status = OrderStatus.pending → o'.status = OrderStatus.filled →
          o'.pnl = some (round2
            ((if o.side = Side.buy then price - o.price else o.price - price)
              * o.size * 100)))
      os (settleMap price t os fills) := by
  intro os
  induction os with
  | nil => intro fills; exact List.Forall₂.nil
  | cons o os ih =>
    intro fills
    refine List.Forall₂.cons ?_ (ih fills.tail)
    intro hp hf
    unfold settleOne at hf ⊢
    by_cases h : o.status = OrderStatus.pending ∧ fills.headD false = true
    · simp only [h, if_true, if_pos]
      simp [settleProfit, mul_assoc]
    · simp only [h, if_false] at hf
      rw [hp] at hf
      cases hf

/-- C3: in any settlement sweep, an order that goes from Pending to
Filled records `pnl = round2((fillPrice - entryPrice) * size * 100)` when
its side is Buy and `pnl = round2((entryPrice - fillPrice) * size * 100)`
when its side is Sell, where `fillPrice` is the engine's current price at
the sweep and `entryPrice` the price stored on the order at submission. -/
theorem sweep_pnl_formula (t : Nat) (fills : List Bool) (s : AppState) :
    List.Forall₂ (fun o o' =>
        o.status = OrderStatus.pending → o'.status = OrderStatus.filled →
          o'.pnl = some (round2
            ((if o.side = Side.buy then s.price - o.price
              else o.price - s.price) * o.size * 100)))
      s.orders (sweepState t fills s).orders := by
  rw [sweepState_orders]
  exact settleMap_pnl s.price t s.orders fills

/-- C10: a settlement sweep never changes the number of orders nor any
order's id, side, size, entryPrice or placedAt, and leaves the price,
candles, connection flag and token untouched. -/
theorem sweep_frame (t : Nat) (fills : List Bool) (s : AppState) :
    (sweepState t fills s).orders.length = s.orders.length ∧
    List.Forall₂ sameCore s.orders (sweepState t fills s).orders ∧
    (sweepState t fills s).price = s.price ∧
    (sweepState t fills s).candles = s.candles ∧
    (sweepState t fills s).connected = s.connected ∧
    (sweepState t fills s).apiToken = s.apiToken := by
  have hcore : List.Forall₂ sameCore s.orders (sweepState t fills s).orders := by
    rw [sweepState_orders]
    exact settleMap_forall₂_sameCore s.price t s.orders fills
  exact ⟨hcore.length_eq.symm, hcore, sweepState_price t fills s,
    sweepState_candles t fills s, sweepState_connected t fills s,
    sweepState_apiToken t fills s⟩

/-! ### Cent-exactness of the ledger arithmetic -/

theorem cents_round2 (q : ℚ) : Cents (round2 q) :=
  ⟨round (q * 100), rfl⟩

theorem cents_settleProfit (price : ℚ) (o : Order) :
    Cents (settleProfit price o) :=
  cents_round2 _

theorem cents_add {a b : ℚ} (ha : Cents a) (hb : Cents b) : Cents (a + b) := by
  obtain ⟨k, rfl⟩ := ha
  obtain ⟨m, rfl⟩ := hb
  exact ⟨k + m, by push_cast; ring⟩

theorem round2_of_cents {q : ℚ} (hq : Cents q) : round2 q = q := by
  obtain ⟨k, rfl⟩ := hq
  unfold round2
  rw [div_mul_cancel₀ _ (by norm_num : (100 : ℚ) ≠ 0), round_intCast]

theorem cents_sweepProfit (price : ℚ) :
    ∀ (os : List Order) (fills : List Bool),
      Cents (sweepProfit price os fills) := by
  intro os
  induction os with
  | nil =>
    intro fills
    exact ⟨0, by rw [show sweepProfit price [] fills = 0 from rfl]; norm_num⟩
  | cons o os ih =>
    intro fills
    simp only [sweepProfit]
    split
    · exact cents_add (cents_settleProfit price o) (ih fills.tail)
    · exact ih fills.tail

theorem sweepOrders_balance (price : ℚ) (t : Nat) :
    ∀ (os : List Order) (fills : List Bool) (b : ℚ) (f : List FeedEvent),
      Cents b →
      (sweepOrders price t os fills b f).2.1
        = b + sweepProfit price os fills := by
  intro os
  induction os with
  | nil =>
    intro fills b f _
    show b = b + sweepProfit price [] fills
    rw [show sweepProfit price [] fills = 0 from rfl, add_zero]
  | cons o os ih =>
    intro fills b f hb
    simp only [sweepOrders, sweepProfit]
    split
    · show (sweepOrders price t os fills.tail
          (round2 (b + settleProfit price o)) _).2.1 = _
      rw [ih fills.tail _ _ (cents_round2 _),
        round2_of_cents (cents_add hb (cents_settleProfit price o))]
      ring
    · show (sweepOrders price t os fills.tail b f).2.1 = _
      exact ih fills.tail b f hb

theorem sweepState_balance (t : Nat) (fills : List Bool) (s : AppState)
    (hb : Cents s.balance) :
    (sweepState t fills s).balance
      = s.balance + sweepProfit s.price s.orders fills := by
  unfold sweepState
  by_cases h : s.orders.isEmpty
  · rw [List.isEmpty_iff] at h
    simp [h, sweepProfit]
  · simp only [h, if_false, Bool.false_eq_true]
    exact sweepOrders_balance s.price t s.orders fills s.balance s.feed hb

theorem applyOp_balance_nonadjust (op : Op) (s : AppState)
    (hop : op.isAdjust = false) (hb : Cents s.balance) :
    (applyOp op s).balance = s.balance + opPnl op s := by
  cases op with
  | place side size id t => simp [applyOp, placeOrder, opPnl]
  | tick u t => simp [applyOp, tickPrice, opPnl]
  | sweep t fills =>
    simp [applyOp, opPnl, sweepState_balance t fills s hb]
  | toggle t =>
    cases hc : s.connected <;> by_cases ht : s.apiToken = "" <;>
      simp [applyOp, opPnl, toggleConnect, disconnect, hc, ht]
  | deposit t => simp [Op.isAdjust] at hop
  | reset t => simp [Op.isAdjust] at hop

theorem cents_applyOp (op : Op) (s : AppState) (hb : Cents s.balance) :
    Cents (applyOp op s).balance := by
  cases op with
  | place side size id t => exact hb
  | tick u t => exact hb
  | sweep t fills =>
    show Cents (sweepState t fills s).balance
    rw [sweepState_balance t fills s hb]
    exact cents_add hb (cents_sweepProfit s.price s.orders fills)
  | toggle t =>
    show Cents (toggleConnect t s).balance
    cases hc : s.connected <;> by_cases ht : s.apiToken = "" <;>
      simp [toggleConnect, disconnect, hc, ht] <;> exact hb
  | deposit t => exact cents_add hb ⟨10000, by norm_num⟩
  | reset t =>
    show Cents (1000 : ℚ)
    exact ⟨100000, by norm_num⟩

theorem run_balance :
    ∀ (ops : List Op) (s : AppState), Cents s.balance →
      (∀ op ∈ ops, op.isAdjust = false) →
      (run ops s).balance = s.balance + runPnl ops s := by
  intro ops
  induction ops with
  | nil => intro s _ _; simp [run, runPnl]
  | cons op ops ih =>
    intro s hb h
    have hop := h op (List.mem_cons_self op ops)
    have hops : ∀ op' ∈ ops, op'.isAdjust = false :=
      fun op' hm => h op' (List.mem_cons_of_mem op hm)
    simp only [run, runPnl]
    rw [ih (applyOp op s) (cents_applyOp op s hb) hops,
      applyOp_balance_nonadjust op s hop hb]
    ring

/-! ### The recorded pnl values account for the balance -/

theorem pnlSum_settleMap (price : ℚ) (t : Nat) :
    ∀ (os : List Order) (fills : List Bool), PendingNoPnl os →
      pnlSum (settleMap price t os fills)
        = pnlSum os + sweepProfit price os fills := by
  intro os
  induction os with
  | nil => intro fills _; simp [settleMap, pnlSum, sweepProfit]
  | cons o os ih =>
    intro fills h
    have ho : o.status = OrderStatus.pending → o.pnl = none :=
      h o (List.mem_cons_self o os)
    have hos : PendingNoPnl os :=
      fun o' hm => h o' (List.mem_cons_of_mem o hm)
    simp only [settleMap, settleOne, sweepProfit, pnlSum]
    by_cases hc : o.status = OrderStatus.pending ∧ fills.headD false = true
    · rw [if_pos hc, if_pos hc]
      have ihs := ih fills.tail hos
      simp only [pnlSum] at ihs
      simp only [List.filterMap_cons, ho hc.1, List.sum_cons, ihs]
      ring
    · rw [if_neg hc, if_neg hc]
      have ihs := ih fills.tail hos
      simp only [pnlSum] at ihs
      cases hpnl : o.pnl with
      | none => simp [List.filterMap_cons, hpnl, ihs]
      | some v =>
        simp [List.filterMap_cons, hpnl, ihs]
        ring

theorem pendingNoPnl_settleMap (price : ℚ) (t : Nat) :
    ∀ (os : List Order) (fills : List Bool), PendingNoPnl os →
      PendingNoPnl (settleMap price t os fills) := by
  intro os
  induction os with
  | nil => intro fills _ o hm; simp [settleMap] at hm
  | cons o os ih =>
    intro fills h o' hm
    have ho : o.status = OrderStatus.pending → o.pnl = none :=
      h o (List.mem_cons_self o os)
    have hos : PendingNoPnl os :=
      fun o'' hm' => h o'' (List.mem_cons_of_mem o hm')
    simp only [settleMap, List.mem_cons] at hm
    cases hm with
    | inl he =>
      subst he
      unfold settleOne
      by_cases hc : o.status = OrderStatus.pending ∧ fills.headD false = true
      · rw [if_pos hc]
        intro hp
        exact absurd hp (by simp)
      · rw [if_neg hc]
        exact ho
    | inr hm' => exact ih fills.tail hos o' hm'

/-- C5: over any run of settlement sweeps (no deposits, no resets),
starting from a cent-aligned balance and orders whose pending entries
carry no pnl, the final balance equals the initial balance plus the sum
of the pnl values recorded on the orders during the run — exactly, hence
in particular within the 0.01 rounding tolerance. -/
theorem balance_tracks_recorded_pnl (ops : List Op) (s : AppState)
    (hb : Cents s.balance) (hsw : ∀ op ∈ ops, op.isSweep = true)
    (hp : PendingNoPnl s.orders) :
    (run ops s).balance
      = s.balance + (pnlSum (run ops s).orders - pnlSum s.orders) ∧
    |(run ops s).balance
      - (s.balance + (pnlSum (run ops s).orders - pnlSum s.orders))|
        ≤ 1/100 := by
  have key : (run ops s).balance
      = s.balance + (pnlSum (run ops s).orders - pnlSum s.orders) := by
    induction ops generalizing s with
    | nil => simp [run]
    | cons op ops ih =>
      have hop : op.isSweep = true := hsw op (List.mem_cons_self op ops)
      have hops : ∀ op' ∈ ops, op'.isSweep = true :=
        fun op' hm => hsw op' (List.mem_cons_of_mem op hm)
      match op, hop with
      | Op.sweep t fills, _ =>
        have hb' : Cents (applyOp (Op.sweep t fills) s).balance :=
          cents_applyOp _ s hb
        have hporders : (sweepState t fills s).orders
            = settleMap s.price t s.orders fills := sweepState_orders t fills s
        have hp' : PendingNoPnl (applyOp (Op.sweep t fills) s).orders := by
          show PendingNoPnl (sweepState t fills s).orders
          rw [hporders]
          exact pendingNoPnl_settleMap s.price t s.orders fills hp
        have hrec := ih (applyOp (Op.sweep t fills) s) hb' hops hp'
        show (run ops (applyOp (Op.sweep t fills) s)).balance = _
        rw [hrec]
        have hbal : (applyOp (Op.sweep t fills) s).balance
            = s.balance + sweepProfit s.price s.orders fills :=
          sweepState_balance t fills s hb
        have hsum : pnlSum (applyOp (Op.sweep t fills) s).orders
            = pnlSum s.orders + sweepProfit s.price s.orders fills := by
          show pnlSum (sweepState t fills s).orders = _
          rw [hporders]
          exact pnlSum_settleMap s.price t s.orders fills hp
        rw [hbal, hsum]
        show _ = s.balance + (pnlSum (run ops (applyOp (Op.sweep t fills) s)).orders - _)
        ring
  refine ⟨key, ?_⟩
  rw [key]
  simp

/-- Witness for C5: one successful sweep over one freshly placed order. -/
theorem balance_tracks_recorded_pnl_witness :
    (run [Op.sweep 1 [true]]
        (placeOrder Side.buy 1 "a1b2c3d" 0 (initState []))).balance
      = (placeOrder Side.buy 1 "a1b2c3d" 0 (initState [])).balance
        + (pnlSum (run [Op.sweep 1 [true]]
            (placeOrder Side.buy 1 "a1b2c3d" 0 (initState []))).orders
          - pnlSum (placeOrder Side.buy 1 "a1b2c3d" 0 (initState [])).orders) ∧
    |(run [Op.sweep 1 [true]]
        (placeOrder Side.buy 1 "a1b2c3d" 0 (initState []))).balance
      - ((placeOrder Side.buy 1 "a1b2c3d" 0 (initState [])).balance
        + (pnlSum (run [Op.sweep 1 [true]]
            (placeOrder Side.buy 1 "a1b2c3d" 0 (initState []))).orders
          - pnlSum (placeOrder Side.buy 1 "a1b2c3d" 0 (initState [])).orders))|
        ≤ 1/100 :=
  balance_tracks_recorded_pnl [Op.sweep 1 [true]]
    (placeOrder Side.buy 1 "a1b2c3d" 0 (initState []))
    ⟨100000, by norm_num [placeOrder, initState]⟩
    (by simp [Op.isSweep])
    (by unfold PendingNoPnl; decide)

/-! ### Capacity bounds -/

theorem settleMap_length (price : ℚ) (t : Nat) :
    ∀ (os : List Order) (fills : List Bool),
      (settleMap price t os fills).length = os.length := by
  intro os
  induction os with
  | nil => intro fills; rfl
  | cons o os ih => intro fills; simp [settleMap, ih]

theorem sweepOrders_feed_length (price : ℚ) (t : Nat) :
    ∀ (os : List Order) (fills : List Bool) (b : ℚ) (f : List FeedEvent),
      f.length ≤ 50 → (sweepOrders price t os fills b f).2.2.length ≤ 50 := by
  intro os
  induction os with
  | nil => intro fills b f hf; exact hf
  | cons o os ih =>
    intro fills b f hf
    simp only [sweepOrders]
    split
    · exact ih fills.tail _ _ (publishFeed_length_le _ f)
    · exact ih fills.tail b f hf

theorem capsOK_applyOp (op : Op) (s : AppState) (h : CapsOK s) :
    CapsOK (applyOp op s) := by
  obtain ⟨ho, hf, hc⟩ := h
  cases op with
  | place side size id t =>
    refine ⟨?_, ?_, hc⟩
    · simp [applyOp, placeOrder, List.length_take]
    · exact publishFeed_length_le _ _
  | tick u t =>
    exact ⟨ho, publishFeed_length_le _ _, appendCandle_length_le _ _⟩
  | sweep t fills =>
    refine ⟨?_, ?_, ?_⟩
    · show (sweepState t fills s).orders.length ≤ 50
      rw [sweepState_orders, settleMap_length]
      exact ho
    · show (sweepState t fills s).feed.length ≤ 50
      unfold sweepState
      by_cases he : s.orders.isEmpty
      · simpa [he] using hf
      · simp only [he, if_false, Bool.false_eq_true]
        exact sweepOrders_feed_length s.price t s.orders fills s.balance s.feed hf
    · show (sweepState t fills s).candles.length ≤ 200
      rw [sweepState_candles]
      exact hc
  | toggle t =>
    show CapsOK (toggleConnect t s)
    unfold toggleConnect disconnect
    split
    · exact ⟨ho, publishFeed_length_le _ _, hc⟩
    · split
      · exact ⟨ho, publishFeed_length_le _ _, hc⟩
      · exact ⟨ho, publishFeed_length_le _ _, hc⟩
  | deposit t =>
    exact ⟨ho, publishFeed_length_le _ _, hc⟩
  | reset t =>
    exact ⟨Nat.zero_le 50, publishFeed_length_le _ _, hc⟩

theorem capsOK_run :
    ∀ (ops : List Op) (s : AppState), CapsOK s → CapsOK (run ops s) := by
  intro ops
  induction ops with
  | nil => intro s h; exact h
  | cons op ops ih => intro s h; exact ih _ (capsOK_applyOp op s h)

/-- C4: starting from the initialized state (80 warm-up candles), any
sequence of operations keeps at most 50 orders, at most 50 feed events
and at most 200 price-history points; and when an insertion would exceed
a capacity, the evicted entry is the oldest one (the last of the
newest-first feed and order lists, the head of the oldest-first candle
list). -/
theorem capacities_bounded (ops : List Op) (cs : List Candle)
    (e : FeedEvent) (f0 : List FeedEvent) (c : Candle) (cs0 : List Candle)
    (side : Side) (size : ℚ) (id : String) (t : Nat) (s : AppState)
    (hcs : cs.length = 80) (hf0 : f0.length = 50) (hcs0 : cs0.length = 200)
    (hs : s.orders.length = 50) :
    CapsOK (run ops (initState cs)) ∧
    publishFeed e f0 = e :: f0.dropLast ∧
    appendCandle c cs0 = cs0.tail ++ [c] ∧
    (placeOrder side size id t s).orders
      = mkOrder id side size s.price t :: s.orders.dropLast := by
  refine ⟨?_, ?_, ?_, ?_⟩
  · refine capsOK_run ops (initState cs) ⟨by simp [initState], by simp [initState], ?_⟩
    simp [initState, hcs]
  · rw [publishFeed_cons_take, List.dropLast_eq_take, hf0]
  · unfold appendCandle
    simp only [List.length_append, List.length_cons, List.length_nil, hcs0]
    rw [show (200 + (0 + 1) - 200 : Nat) = 1 by omega,
      List.drop_append_of_le_length (by omega), List.drop_one]
  · show (mkOrder id side size s.price t :: s.orders).take 50 = _
    rw [List.take_succ_cons, List.dropLast_eq_take, hs]

/-- Witness for C4 at concrete buffers of exactly the boundary sizes. -/
theorem capacities_bounded_witness :
    CapsOK (run [] (initState (List.replicate 80 { time := 0, price := 1 }))) ∧
    publishFeed (noTokenEvent 0) (List.replicate 50 (noTokenEvent 1))
      = noTokenEvent 0 :: (List.replicate 50 (noTokenEvent 1)).dropLast ∧
    appendCandle { time := 0, price := 1 }
        (List.replicate 200 { time := 1, price := 2 })
      = (List.replicate 200 { time := 1, price := 2 }).tail
          ++ [{ time := 0, price := 1 }] ∧
    (placeOrder Side.buy 1 "a1b2c3d" 0
        { initState [] with
            orders := List.replicate 50 (mkOrder "z" Side.sell 1 1 0) }).orders
      = mkOrder "a1b2c3d" Side.buy 1
          { initState [] with
              orders := List.replicate 50 (mkOrder "z" Side.sell 1 1 0) }.price 0
        :: { initState [] with
              orders := List.replicate 50 (mkOrder "z" Side.sell 1 1 0)
           }.orders.dropLast :=
  capacities_bounded [] (List.replicate 80 { time := 0, price := 1 })
    (noTokenEvent 0) (List.replicate 50 (noTokenEvent 1))
    { time := 0, price := 1 } (List.replicate 200 { time := 1, price := 2 })
    Side.buy 1 "a1b2c3d" 0
    { initState [] with orders := List.replicate 50 (mkOrder "z" Side.sell 1 1 0) }
    (by simp) (by simp) (by simp) (by simp)

/-! ### The price process -/

theorem nextPrice_grid_zero (k : ℤ) :
    nextPrice ((k : ℚ) / 100000) 0 = ((k - 75 : ℤ) : ℚ) / 100000 := by
  unfold nextPrice round5
  rw [show ((k : ℚ)/100000 + (0 - 1/2) * (15/10000)) * 100000
      = ((k - 75 : ℤ) : ℚ) by push_cast; ring, round_intCast]

theorem worstTicks_closed :
    ∀ (n : Nat) (k : ℤ),
      worstTicks n ((k : ℚ) / 100000) = ((k - 75 * n : ℤ) : ℚ) / 100000 := by
  intro n
  induction n with
  | zero => intro k; simp [worstTicks]
  | succ n ih =>
    intro k
    show worstTicks n (nextPrice ((k : ℚ) / 100000) 0) = _
    rw [nextPrice_grid_zero, ih (k - 75)]
    congr 1
    push_cast
    ring

/-- C8 (counterexample): the claim says every price produced by the tick
operation is strictly positive, but the code enforces no floor: starting
from the initial price 1.1, a run of 1467 ticks each drawing the minimum
`Math.random()` value 0 (delta -0.00075 each time) drives the price below
zero. -/
theorem price_can_go_nonpositive : worstTicks 1467 (11/10) < 0 := by
  rw [show (11/10 : ℚ) = ((110000 : ℤ) : ℚ) / 100000 by norm_num,
    worstTicks_closed]
  norm_num

/-- C8 (amended): for a price on the 5-decimal grid (as every price in
the app is) and any tick draw `u ∈ [0,1]`, the tick moves the price by at
most 0.00075 in absolute value and lands back on the grid; the
state-level tick updates the current price to exactly this value.  Strict
positivity of the price sequence, however, is not guaranteed (see the
counterexample). -/
theorem tick_delta_bounded (p u : ℚ) (t : Nat) (s : AppState)
    (hp : Grid5 p) (h0 : 0 ≤ u) (h1 : u ≤ 1) :
    |nextPrice p u - p| ≤ 75/100000 ∧ Grid5 (nextPrice p u) ∧
    (tickPrice u t s).price = nextPrice s.price u := by
  obtain ⟨k, rfl⟩ := hp
  set m := round ((u - 1/2) * 150) with hm
  have harg : ((k : ℚ)/100000 + (u - 1/2) * (15/10000)) * 100000
      = (k : ℚ) + (u - 1/2) * 150 := by ring
  have hnext : nextPrice ((k : ℚ)/100000) u = ((k + m : ℤ) : ℚ) / 100000 := by
    unfold nextPrice round5
    rw [harg, round_int_add, hm]
  have hub : m ≤ 75 := by
    rw [hm, round_eq]
    have h' : ⌊(u - 1/2) * 150 + 1/2⌋ < (76 : ℤ) :=
      Int.floor_lt.mpr (by push_cast; linarith)
    omega
  have hlb : (-75 : ℤ) ≤ m := by
    rw [hm, round_eq]
    exact Int.le_floor.mpr
      (by exact_mod_cast (by linarith : (-75 : ℚ) ≤ (u - 1/2) * 150 + 1/2))
  refine ⟨?_, ⟨k + m, hnext⟩, rfl⟩
  rw [hnext, show ((k + m : ℤ) : ℚ)/100000 - (k : ℚ)/100000
      = (m : ℚ)/100000 by push_cast; ring, abs_div,
    show |(100000 : ℚ)| = 100000 by norm_num]
  have habs : |(m : ℚ)| ≤ 75 := by
    rw [abs_le]
    exact ⟨by exact_mod_cast hlb, by exact_mod_cast hub⟩
  linarith

/-- Witness for C8 (amended) at the starting price 1.1 and the middle
draw u = 1/2. -/
theorem tick_delta_bounded_witness :
    |nextPrice (11/10) (1/2) - 11/10| ≤ 75/100000 ∧
    Grid5 (nextPrice (11/10) (1/2)) ∧
    (tickPrice (1/2) 0 (initState [])).price
      = nextPrice (initState []).price (1/2) :=
  tick_delta_bounded (11/10) (1/2) 0 (initState [])
    ⟨110000, by norm_num⟩ (by norm_num) (by norm_num)

end DerivLike
